import Mathlib

/-!
# Verification of the tchaik playlist/websocket control plane

Shallow embedding of the playlist domain model from
`src/cmd/tchaik/ui/js/src/stores/PlaylistStore.js` and of the websocket
command/search layer from `src/cmd/tchaik/websocket.go`, with theorems
settling the specification claims about them.

Modelling conventions:
* A JS/Go `Path` is a `List Key`; keys are strings or numbers.
  JS loose equality (`==`) between a number and a numeric string is not
  modelled: all inputs used here compare keys of equal shape, where JS
  loose and strict equality agree with `DecidableEq`.
* `CollectionStore.pathToKey` (not part of the sources) is an injective
  encoding of a path as a map key; maps keyed by `pathToKey(p)` are
  modelled as association lists keyed by `p` itself.
* JS out-of-range array reads yield `undefined` and crash when
  dereferenced; the embedding uses `getD` defaults and theorems carry
  in-range hypotheses wherever the source would otherwise crash.
* Stateful functions become pure state-passing functions.
-/

set_option autoImplicit false

namespace Tchaik

/-- A single path segment: a group key (string) or a track index (number).
Mirrors the primitive key values used in `PlaylistStore.js` paths. -/
inductive Key where
  | str (s : String)
  | num (n : Nat)
deriving DecidableEq, Repr

instance : Inhabited Key := ⟨Key.str ""⟩

/-- A path: ordered sequence of keys, root first. -/
abbrev Path := List Key

/-- One entry of a playlist item `data` map, as produced by
`buildPlaylistItem`: a group node records its ordered child keys, a
tracks node records its ordered track indices, and the
`console.error` fallback records an entry with no `keys` field. -/
inductive Entry where
  | egroup (keys : List Key)
  | etracks (keys : List Key)
  | eempty
deriving DecidableEq, Repr

/-- The `keys` field of a data entry; `none` models an absent field
(the `{}` entry), so that `!data.keys` in `remove` can be mirrored. -/
def Entry.keysOf : Entry → Option (List Key)
  | .egroup ks => some ks
  | .etracks ks => some ks
  | .eempty => none

/-- Replace the `keys` array of an entry in place (the entry object is
mutated by `remove`), keeping its `type` tag. -/
def Entry.setKeys : Entry → List Key → Entry
  | .egroup _, ks => .egroup ks
  | .etracks _, ks => .etracks ks
  | .eempty, _ => .eempty

/-- A playlist item as built by `buildPlaylistItem`:
`{root, paths, data, tracks}`. `paths` and `tracks` hold root-relative
paths; `data` is keyed by the absolute path `root ++ p` (the source keys
it by `CollectionStore.pathToKey(root.concat(p))`). -/
structure PlaylistItem where
  root : Path
  paths : List Path
  data : List (Path × Entry)
  tracks : List Path
deriving DecidableEq, Repr

instance : Inhabited PlaylistItem := ⟨⟨[], [], [], []⟩⟩

/-- The playlist current-position record `{item, track, path}`.
`track` is an `Int` because `setCurrent` stores `-1` when the requested
path is not found. -/
structure Current where
  item : Nat
  track : Int
  path : Path
deriving DecidableEq, Repr

/-- JS array read `xs[i]` with an `Int` index, defaulting out-of-range
(`undefined`) accesses. -/
def intGetD (xs : List Path) (i : Int) (d : Path) : Path :=
  if 0 ≤ i then xs.getD i.toNat d else d

/-- `reset()` from `PlaylistStore.js`: positions the playlist at item 0,
track 0 (storing `items[0].tracks[0]` as the path, without the root
prefix), or clears the position if the playlist is empty. -/
def resetCur (items : List PlaylistItem) : Option Current :=
  if 0 < items.length then
    some { item := 0, track := 0, path := (items.getD 0 default).tracks.getD 0 [] }
  else
    none

/-- `next()` from `PlaylistStore.js`, as a function from the current
position to the new one: advance the track index within the current
item; on overflow move to the next item at track 0; past the last item
clear the position; from a null position perform `reset()`. -/
def nextCur (items : List PlaylistItem) : Option Current → Option Current
  | none => resetCur items
  | some cur =>
    if cur.track + 1 < ((items.getD cur.item default).tracks.length : Int) then
      some { item := cur.item, track := cur.track + 1,
             path := (items.getD cur.item default).root
               ++ intGetD (items.getD cur.item default).tracks (cur.track + 1) [] }
    else if cur.item + 1 < items.length then
      some { item := cur.item + 1, track := 0,
             path := (items.getD (cur.item + 1) default).root
               ++ (items.getD (cur.item + 1) default).tracks.getD 0 [] }
    else
      none

/-- `prev()` from `PlaylistStore.js`: retreat within the item; at track
0 move to the last track of the previous item; at the very first track
of the very first item leave the position unchanged; from a null
position perform `reset()`. -/
def prevCur (items : List PlaylistItem) : Option Current → Option Current
  | none => resetCur items
  | some cur =>
    if cur.track > 0 then
      some { item := cur.item, track := cur.track - 1,
             path := (items.getD cur.item default).root
               ++ intGetD (items.getD cur.item default).tracks (cur.track - 1) [] }
    else if cur.item > 0 then
      some { item := cur.item - 1,
             track := ((items.getD (cur.item - 1) default).tracks.length : Int) - 1,
             path := (items.getD (cur.item - 1) default).root
               ++ intGetD (items.getD (cur.item - 1) default).tracks
                    (((items.getD (cur.item - 1) default).tracks.length : Int) - 1) [] }
    else
      some cur

/-- `canPrev()` from `PlaylistStore.js`: reads only the current
position. -/
def canPrevCur (current : Option Current) : Bool :=
  match current with
  | none => false
  | some cur => cur.track > 0 || cur.item > 0

/-- `canNext()` from `PlaylistStore.js`: compares the track index with
`tracks.length - 1` and the item index with `items.length - 1`
(both over the integers, as in JS). -/
def canNextCur (items : List PlaylistItem) (current : Option Current) : Bool :=
  match current with
  | none => false
  | some cur =>
    decide (cur.track < ((items.getD cur.item default).tracks.length : Int) - 1)
      || decide ((cur.item : Int) < (items.length : Int) - 1)

/-! ## Claim C2: canNext / canPrev -/

/-- A one-item, one-track playlist used as a concrete input. -/
def itemsOneTrack : List PlaylistItem :=
  [{ root := [Key.str "r"], paths := [[]],
     data := [([Key.str "r"], Entry.etracks [Key.num 0])],
     tracks := [[Key.num 0]] }]

/-- C2 fails as stated at a null current position: with a nonempty
playlist, `canNext()` and `canPrev()` both return `false` on a null
position, yet NEXT (resp. PREV) performs a `reset()` that yields a
non-null position — NEXT does not yield null and PREV changes the
position. -/
theorem canNextPrev_null_cex :
    canNextCur itemsOneTrack none = false
      ∧ nextCur itemsOneTrack none ≠ none
      ∧ canPrevCur none = false
      ∧ prevCur itemsOneTrack none ≠ none := by
  decide

/-- C2 (amended): for every playlist state whose current position is
non-null, `canNext()` holds iff a subsequent NEXT would not yield a null
position, and `canPrev()` holds iff a subsequent PREV would change the
position. (At a null position both predicates return `false`, although
NEXT and PREV then perform a reset.) Both predicates are pure functions
of the state. -/
theorem canNext_canPrev_iff_nonnull (items : List PlaylistItem) (c : Current) :
    (canNextCur items (some c) = true ↔ nextCur items (some c) ≠ none)
      ∧ (canPrevCur (some c) = true ↔ prevCur items (some c) ≠ some c) := by
  obtain ⟨ci, ct, cp⟩ := c
  constructor
  · have hnext : nextCur items (some ⟨ci, ct, cp⟩) ≠ none
        ↔ (ct + 1 < ((items.getD ci default).tracks.length : Int)
            ∨ ci + 1 < items.length) := by
      unfold nextCur
      dsimp only
      split_ifs with h1 h2
      · exact iff_of_true (Option.some_ne_none _) (Or.inl h1)
      · exact iff_of_true (Option.some_ne_none _) (Or.inr h2)
      · refine iff_of_false (by simp) ?_
        omega
    have hcan : canNextCur items (some ⟨ci, ct, cp⟩) = true
        ↔ (ct < ((items.getD ci default).tracks.length : Int) - 1
            ∨ ((ci : Int) < (items.length : Int) - 1)) := by
      unfold canNextCur
      simp
    rw [hcan, hnext]
    constructor <;> rintro (h | h) <;> [left; right; left; right] <;> omega
  · have hprev : prevCur items (some ⟨ci, ct, cp⟩) ≠ some ⟨ci, ct, cp⟩
        ↔ (ct > 0 ∨ ci > 0) := by
      unfold prevCur
      dsimp only
      split_ifs with h1 h2
      · simp only [ne_eq, Option.some.injEq, Current.mk.injEq, not_and]
        constructor
        · intro _
          left
          exact h1
        · intro _ h _
          omega
      · simp only [ne_eq, Option.some.injEq, Current.mk.injEq, not_and]
        constructor
        · intro _
          right
          exact h2
        · intro _ h _
          omega
      · simp only [ne_eq, not_true_eq_false, false_iff, not_or]
        omega
    have hcan : canPrevCur (some ⟨ci, ct, cp⟩) = true ↔ (ct > 0 ∨ ci > 0) := by
      unfold canPrevCur
      simp
    rw [hcan, hprev]

/-! ## Claim C1: NEXT traversal -/

/-- Observable part of a current position: the `(item, track)` pair. -/
def curProj (c : Current) : Nat × Int := (c.item, c.track)

/-- All `(item, track)` pairs of a playlist, in lexicographic order. -/
def pairsOf (items : List PlaylistItem) : List (Nat × Int) :=
  (List.range items.length).flatMap fun i =>
    (List.range (items.getD i default).tracks.length).map fun t : Nat => (i, (t : Int))

/-- Total number of tracks across all items. -/
def totalTracks (items : List PlaylistItem) : Nat :=
  (items.map fun it => it.tracks.length).sum

/-- A playlist whose second item holds no tracks. -/
def itemsZeroTrack : List PlaylistItem :=
  [{ root := [Key.str "a"], paths := [[]],
     data := [([Key.str "a"], Entry.etracks [Key.num 0])],
     tracks := [[Key.num 0]] },
   { root := [Key.str "b"], paths := [[]],
     data := [([Key.str "b"], Entry.egroup [])],
     tracks := [] }]

/-- C1 fails as stated when an item holds zero tracks: for the playlist
`itemsZeroTrack` the only `(item, track)` pair is `(0, 0)`, which the
reset position already occupies, yet the first NEXT yields position
`(1, 0)` — visiting a pair that does not exist — instead of null. -/
theorem next_traversal_cex :
    pairsOf itemsZeroTrack = [(0, 0)]
      ∧ ((nextCur itemsZeroTrack)^[1] (resetCur itemsZeroTrack)).map curProj = some (1, 0) := by
  decide

/-- Bump the item index of a current position by one. -/
def bumpC (c : Current) : Current := ⟨c.item + 1, c.track, c.path⟩

theorem nextCur_path_irrel (items : List PlaylistItem) (i : Nat) (t : Int) (p q : Path) :
    nextCur items (some ⟨i, t, p⟩) = nextCur items (some ⟨i, t, q⟩) := rfl

theorem nextCur_iterate_path_irrel (items : List PlaylistItem) (m : Nat) (hm : 1 ≤ m)
    (i : Nat) (t : Int) (p q : Path) :
    (nextCur items)^[m] (some ⟨i, t, p⟩) = (nextCur items)^[m] (some ⟨i, t, q⟩) := by
  obtain ⟨k, rfl⟩ : ∃ k, m = k + 1 := ⟨m - 1, by omega⟩
  rw [Function.iterate_succ_apply, Function.iterate_succ_apply, nextCur_path_irrel]

/-- `next` on the tail playlist simulates `next` on the whole playlist
with the item index shifted by one. -/
theorem nextCur_cons_shift (a : PlaylistItem) (items : List PlaylistItem)
    (i : Nat) (t : Int) (p : Path) :
    nextCur (a :: items) (some ⟨i + 1, t, p⟩)
      = (nextCur items (some ⟨i, t, p⟩)).map bumpC := by
  unfold nextCur
  dsimp only
  have e1 : (a :: items).getD (i + 1) default = items.getD i default := by
    simp [List.getD]
  have e2 : (a :: items).getD (i + 1 + 1) default = items.getD (i + 1) default := by
    simp [List.getD]
  rw [e1, e2, List.length_cons]
  split_ifs with h1 h2 h3
  · rfl
  · rfl
  · exact absurd (by omega : i + 1 < items.length) h3
  · exact absurd (by omega : i + 1 + 1 < items.length + 1) h2
  · rfl

/-- Iterating `next` from a freshly reset position walks track by track
through the first item. -/
theorem nextCur_first_item (a : PlaylistItem) (items : List PlaylistItem) (j : Nat)
    (hj : j < a.tracks.length) :
    (nextCur (a :: items))^[j] (resetCur (a :: items))
      = some ⟨0, (j : Int),
          if j = 0 then a.tracks.getD 0 []
          else a.root ++ intGetD a.tracks (j : Int) []⟩ := by
  induction j with
  | zero =>
    simp [resetCur, List.getD]
  | succ j ih =>
    have hj' : j < a.tracks.length := Nat.lt_of_succ_lt hj
    rw [Function.iterate_succ_apply', ih hj']
    unfold nextCur
    dsimp only
    have hgd : (a :: items).getD 0 default = a := rfl
    rw [hgd]
    rw [if_pos (show (j : Int) + 1 < (a.tracks.length : Int) by exact_mod_cast hj)]
    have hcast : ((j : Int) + 1) = (((j + 1 : Nat)) : Int) := by push_cast; ring
    rw [hcast]
    simp

/-- `next` at the last track of the first item: move to the second item
if there is one, otherwise clear the position. -/
theorem nextCur_item_end (a : PlaylistItem) (items : List PlaylistItem) (p : Path) (t : Int)
    (ht : t + 1 = (a.tracks.length : Int)) :
    nextCur (a :: items) (some ⟨0, t, p⟩)
      = if 0 < items.length then
          some ⟨1, 0, (items.getD 0 default).root ++ (items.getD 0 default).tracks.getD 0 []⟩
        else none := by
  unfold nextCur
  dsimp only
  have hgd : (a :: items).getD 0 default = a := rfl
  rw [hgd, if_neg (by omega)]
  have e2 : (a :: items).getD (0 + 1) default = items.getD 0 default := by
    simp [List.getD]
  rw [List.length_cons, e2]
  by_cases h2 : 0 < items.length
  · rw [if_pos (by omega), if_pos h2]
  · rw [if_neg (by omega), if_neg h2]

/-- A trajectory of `next` in the tail playlist, shifted by `bumpC`,
is a trajectory in the whole playlist — as long as it has not run off
the end (`next` on a null position would reset instead). -/
theorem nextCur_cons_iterate_shift (a : PlaylistItem) (items : List PlaylistItem)
    (c0 : Current) (m : Nat)
    (hsome : ∀ m' < m, (nextCur items)^[m'] (some c0) ≠ none) :
    (nextCur (a :: items))^[m] (some (bumpC c0))
      = ((nextCur items)^[m] (some c0)).map bumpC := by
  induction m with
  | zero => rfl
  | succ m ih =>
    rw [Function.iterate_succ_apply', Function.iterate_succ_apply',
        ih (fun m' hm' => hsome m' (Nat.lt_succ_of_lt hm'))]
    obtain ⟨c, hc⟩ : ∃ c, (nextCur items)^[m] (some c0) = some c := by
      have hn := hsome m (Nat.lt_succ_self m)
      cases h : (nextCur items)^[m] (some c0)
      · exact absurd h hn
      · exact ⟨_, rfl⟩
    rw [hc]
    obtain ⟨ci, ct, cp⟩ := c
    exact nextCur_cons_shift a items ci ct cp

theorem pairsOf_cons (a : PlaylistItem) (items : List PlaylistItem) :
    pairsOf (a :: items)
      = ((List.range a.tracks.length).map fun t : Nat => ((0 : Nat), (t : Int)))
        ++ (pairsOf items).map fun q => (q.1 + 1, q.2) := by
  unfold pairsOf
  rw [List.length_cons, List.range_succ_eq_map, List.flatMap_cons]
  congr 1
  rw [List.flatMap_map, List.map_flatMap]
  congr 1
  funext i
  have e : (a :: items).getD (Nat.succ i) default = items.getD i default := by
    simp [List.getD]
  rw [e, List.map_map]
  rfl

theorem totalTracks_cons (a : PlaylistItem) (items : List PlaylistItem) :
    totalTracks (a :: items) = a.tracks.length + totalTracks items := by
  simp [totalTracks]

theorem pairsOf_length (items : List PlaylistItem) :
    (pairsOf items).length = totalTracks items := by
  induction items with
  | nil => rfl
  | cons a items ih =>
    rw [pairsOf_cons]
    simp only [List.length_append, List.length_map, List.length_range, ih, totalTracks_cons]

theorem totalTracks_pos (items : List PlaylistItem) (hne : items ≠ [])
    (htr : ∀ it ∈ items, it.tracks ≠ []) : 0 < totalTracks items := by
  cases items with
  | nil => exact absurd rfl hne
  | cons a items =>
    have h1 : a.tracks ≠ [] := htr a (List.mem_cons_self a items)
    have h2 : 0 < a.tracks.length := List.length_pos.mpr h1
    rw [totalTracks_cons]
    omega

theorem getD_map_of_lt {α β : Type _} (f : α → β) (l : List α) (m : Nat)
    (h : m < l.length) (d : α) (d' : β) :
    (l.map f).getD m d' = f (l.getD m d) := by
  rw [List.getD_eq_getElem _ _ (by simpa using h), List.getD_eq_getElem _ _ h,
    List.getElem_map]

theorem getD_range_of_lt (k j : Nat) (h : j < k) (d : Nat) :
    (List.range k).getD j d = j := by
  rw [List.getD_eq_getElem _ _ (by simpa using h)]
  simp

/-- Pointwise description of the `next` trajectory from a fresh reset
of a playlist whose items all hold at least one track: step `j` sits at
the `j`-th `(item, track)` pair and step `totalTracks` is null. -/
theorem nextCur_iterate_spec :
    ∀ items : List PlaylistItem, items ≠ [] → (∀ it ∈ items, it.tracks ≠ []) →
      ∀ j ≤ totalTracks items,
        ((nextCur items)^[j] (resetCur items)).map curProj
          = if j < totalTracks items then some ((pairsOf items).getD j (0, 0)) else none := by
  intro items
  induction items with
  | nil => exact fun hne => absurd rfl hne
  | cons a rest ih =>
    intro _ htr j hj
    have hka : a.tracks ≠ [] := htr a (List.mem_cons_self a rest)
    have hk : 0 < a.tracks.length := List.length_pos.mpr hka
    have htot : totalTracks (a :: rest) = a.tracks.length + totalTracks rest :=
      totalTracks_cons a rest
    by_cases hjk : j < a.tracks.length
    · rw [nextCur_first_item a rest j hjk,
        if_pos (show j < totalTracks (a :: rest) by omega)]
      rw [pairsOf_cons, List.getD_append _ _ _ _ (by simpa using hjk),
        getD_map_of_lt _ _ _ (by simpa using hjk) 0 (0, 0),
        getD_range_of_lt _ _ hjk 0]
      simp [curProj]
    · push_neg at hjk
      have hstep_k : (nextCur (a :: rest))^[a.tracks.length] (resetCur (a :: rest))
          = if 0 < rest.length then
              some ⟨1, 0, (rest.getD 0 default).root ++ (rest.getD 0 default).tracks.getD 0 []⟩
            else none := by
        obtain ⟨k', hk'⟩ : ∃ k', a.tracks.length = k' + 1 := ⟨a.tracks.length - 1, by omega⟩
        rw [hk', Function.iterate_succ_apply', nextCur_first_item a rest k' (by omega)]
        exact nextCur_item_end a rest _ ((k' : Int)) (by omega)
      by_cases hre : rest = []
      · subst hre
        have htot0 : totalTracks (a :: ([] : List PlaylistItem)) = a.tracks.length := by
          rw [htot]; rfl
        have hjeq : j = a.tracks.length := by omega
        rw [hjeq, hstep_k, if_neg (by simp), if_neg (by omega)]
        rfl
      · have htrr : ∀ it ∈ rest, it.tracks ≠ [] :=
          fun it hmem => htr it (List.mem_cons_of_mem a hmem)
        have htpos : 0 < totalTracks rest := totalTracks_pos rest hre htrr
        have hrl : 0 < rest.length := List.length_pos.mpr hre
        have hstep_k' : (nextCur (a :: rest))^[a.tracks.length] (resetCur (a :: rest))
            = some (bumpC ⟨0, 0, (rest.getD 0 default).root
                ++ (rest.getD 0 default).tracks.getD 0 []⟩) := by
          rw [hstep_k, if_pos hrl]
          rfl
        obtain ⟨m, hmj⟩ : ∃ m, j = m + a.tracks.length := ⟨j - a.tracks.length, by omega⟩
        have hmle : m ≤ totalTracks rest := by omega
        have hresetr : resetCur rest
            = some ⟨0, 0, (rest.getD 0 default).tracks.getD 0 []⟩ := by
          unfold resetCur
          rw [if_pos hrl]
        have hproj : ∀ m' ≤ totalTracks rest,
            ((nextCur rest)^[m'] (some ⟨0, 0, (rest.getD 0 default).root
                ++ (rest.getD 0 default).tracks.getD 0 []⟩)).map curProj
              = if m' < totalTracks rest then some ((pairsOf rest).getD m' (0, 0))
                else none := by
          intro m' hm'
          cases m' with
          | zero =>
            have h0 := ih hre htrr 0 (Nat.zero_le _)
            rw [if_pos htpos] at h0
            rw [hresetr] at h0
            rw [if_pos htpos]
            simpa [curProj] using h0
          | succ m'' =>
            rw [show (nextCur rest)^[m'' + 1] (some ⟨0, 0, (rest.getD 0 default).root
                  ++ (rest.getD 0 default).tracks.getD 0 []⟩)
                = (nextCur rest)^[m'' + 1] (resetCur rest) by
              rw [hresetr]
              exact nextCur_iterate_path_irrel rest (m'' + 1) (by omega) 0 0 _ _]
            exact ih hre htrr (m'' + 1) hm'
        have hsome : ∀ m' < m,
            (nextCur rest)^[m'] (some ⟨0, 0, (rest.getD 0 default).root
                ++ (rest.getD 0 default).tracks.getD 0 []⟩) ≠ none := by
          intro m' hm' hnone
          have h1 := hproj m' (by omega)
          rw [if_pos (by omega), hnone] at h1
          simp at h1
        rw [hmj, Function.iterate_add_apply, hstep_k',
          nextCur_cons_iterate_shift a rest _ m hsome, Option.map_map,
          show curProj ∘ bumpC = (fun q : Nat × Int => (q.1 + 1, q.2)) ∘ curProj from rfl,
          ← Option.map_map, hproj m hmle]
        by_cases hmlt : m < totalTracks rest
        · rw [if_pos hmlt, if_pos (by omega), pairsOf_cons,
            List.getD_append_right _ _ _ _
              (by simp only [List.length_map, List.length_range]; omega)]
          simp only [List.length_map, List.length_range]
          rw [show m + a.tracks.length - a.tracks.length = m by omega,
            getD_map_of_lt _ _ _ (by rw [pairsOf_length]; omega) (0, 0) (0, 0)]
          simp
        · rw [if_neg hmlt, if_neg (by omega)]
          rfl

/-- C1 (amended): for every nonempty playlist each of whose items holds
at least one track, the sequence of positions produced by repeated NEXT
from a freshly reset position visits every `(item, track)` pair in
lexicographic order exactly once and then becomes null; and NEXT on a
null position resets to `(item 0, track 0)`. (The amendment adds the
hypothesis that every item holds at least one track; an item with zero
tracks breaks the claim, see `next_traversal_cex`.) -/
theorem next_visits_all_pairs (items : List PlaylistItem)
    (hne : items ≠ []) (htr : ∀ it ∈ items, it.tracks ≠ []) :
    ((List.range (totalTracks items + 1)).map
        fun j => ((nextCur items)^[j] (resetCur items)).map curProj)
      = (pairsOf items).map some ++ [none]
    ∧ (nextCur items none).map curProj = some (0, 0) := by
  constructor
  · apply List.ext_getElem
    · simp [pairsOf_length]
    · intro n h1 h2
      rw [List.getElem_map, List.getElem_range]
      have hn : n < totalTracks items + 1 := by simpa using h1
      rw [nextCur_iterate_spec items hne htr n (by omega)]
      by_cases hlt : n < totalTracks items
      · rw [if_pos hlt]
        have hlen : n < ((pairsOf items).map some).length := by
          simpa [pairsOf_length] using hlt
        rw [List.getElem_append_left hlen, List.getElem_map]
        rw [List.getD_eq_getElem _ _ (by rw [pairsOf_length]; exact hlt)]
      · rw [if_neg hlt]
        have hlen : ((pairsOf items).map some).length ≤ n := by
          simp only [List.length_map, pairsOf_length]
          omega
        rw [List.getElem_append_right hlen]
        simp
  · have h : nextCur items none = resetCur items := rfl
    rw [h]
    unfold resetCur
    rw [if_pos (List.length_pos.mpr hne)]
    rfl

/-- A two-item playlist (two tracks, then one track). -/
def exItemsC1 : List PlaylistItem :=
  [{ root := [Key.str "r"], paths := [[]],
     data := [([Key.str "r"], Entry.etracks [Key.num 0, Key.num 1])],
     tracks := [[Key.num 0], [Key.num 1]] },
   { root := [Key.str "s"], paths := [[]],
     data := [([Key.str "s"], Entry.etracks [Key.num 0])],
     tracks := [[Key.num 0]] }]

/-- Witness instantiating `next_visits_all_pairs` on `exItemsC1`. -/
theorem next_visits_all_pairs_witness :
    (((List.range (totalTracks exItemsC1 + 1)).map
        fun j => ((nextCur exItemsC1)^[j] (resetCur exItemsC1)).map curProj)
      = (pairsOf exItemsC1).map some ++ [none])
    ∧ (nextCur exItemsC1 none).map curProj = some (0, 0) :=
  next_visits_all_pairs exItemsC1 (by decide) (by decide)

/-! ## PLAY_ITEM: `setCurrent` from PlaylistStore.js -/

/-- The linear scan of `setCurrent`: the first index `i` with
`pathToKey(item.root.concat(item.tracks[i])) === pathToKey(path)`
(path equality, since `pathToKey` is injective), or `-1` when no track
matches — the source's `track` variable. -/
def findTrack (root : Path) (path : Path) : Nat → List Path → Int
  | _, [] => -1
  | i, tp :: rest =>
    if root ++ tp = path then (i : Int) else findTrack root path (i + 1) rest

/-- `setCurrent(itemIndex, path)` from `PlaylistStore.js`: scan item
`itemIndex`'s track list for an exact match of `path`; `console.error`
when none is found; then — in all cases — store
`{item: itemIndex, path: path, track: scanResult}` as the current
position. Returns the stored position and whether an error was
reported. -/
def setCurrentCur (items : List PlaylistItem) (itemIndex : Nat) (path : Path) :
    Option Current × Bool :=
  let item := items.getD itemIndex default
  let track := findTrack item.root path 0 item.tracks
  (some { item := itemIndex, track := track, path := path }, track = -1)

/-! ## REMOVE: `remove` from PlaylistStore.js -/

/-- The elementwise loop of `_isPathPrefix` (reached only when the
candidate is not longer than the path). -/
def prefChk : Path → Path → Bool
  | _, [] => true
  | [], _ :: _ => false
  | x :: xs, y :: ys => x == y && prefChk xs ys

/-- `_isPathPrefix(path, pre)` from `remove`: `pre` is an elementwise
leading segment of `p`, after the length guard. -/
def isPathPre (p pre : Path) : Bool :=
  if pre.length > p.length then false else prefChk p pre

/-- `_pathsEqual(p1, p2)` from `remove`. -/
def pathsEqual (p1 p2 : Path) : Bool :=
  (p1.length == p2.length) && isPathPre p1 p2

/-- `_removeTracks(tracks, path)`: splice out every track with `path`
as a prefix, keeping order. -/
def removeTracks (tracks : List Path) (path : Path) : List Path :=
  tracks.filter fun t => !(isPathPre t path)

/-- Association-list lookup for the `data` object (keys are
`pathToKey` images, modelled by the paths themselves). -/
def dataLookup (data : List (Path × Entry)) (k : Path) : Option Entry :=
  match data with
  | [] => none
  | (k', e) :: rest => if k' = k then some e else dataLookup rest k

/-- Property assignment `data[k] = e` (replace in place, else append —
JS objects keep insertion order). -/
def dataInsert (data : List (Path × Entry)) (k : Path) (e : Entry) : List (Path × Entry) :=
  match data with
  | [] => [(k, e)]
  | (k', e') :: rest =>
    if k' = k then (k, e) :: rest else (k', e') :: dataInsert rest k e

/-- Property deletion `delete data[k]`. -/
def dataErase (data : List (Path × Entry)) (k : Path) : List (Path × Entry) :=
  match data with
  | [] => []
  | (k', e') :: rest => if k' = k then rest else (k', e') :: dataErase rest k

/-- `_removePaths(paths, data, path)`: splice out every structural path
with `path` as a prefix and delete its `data` property (the source
deletes `data[pathToKey(paths[i])]`, keyed by the *relative* path). -/
def removePaths (paths : List Path) (data : List (Path × Entry)) (path : Path) :
    List Path × List (Path × Entry) :=
  match paths with
  | [] => ([], data)
  | p :: rest =>
    if isPathPre p path then removePaths rest (dataErase data p) path
    else
      let r := removePaths rest data path
      (p :: r.1, r.2)

/-- `data.keys.splice(data.keys.indexOf(last), 1)`: remove the first
occurrence of `last`; when `last` is absent `indexOf` yields `-1` and
`splice(-1, 1)` removes the final element instead (no-op on an empty
array). -/
def spliceKeys (ks : List Key) (k : Key) : List Key :=
  if ks.contains k then ks.erase k else ks.dropLast

/-- The `do`/`while` loop of `remove`, acting on the selected item:
delete the whole item (`none`) when `path` equals its root; otherwise
prune tracks and structural paths having `path` as a prefix, pop the
last key of `path`, splice that key out of the parent's recorded
`keys`, and continue upward while the parent's key list became empty
and more than one key of the popped path remains. `fuel` bounds the
iteration count; every iteration shortens `path` by one key and the
loop re-enters only while the popped path has length over 1, so any
fuel above `path.length` makes the fuel-0 branch unreachable. -/
def removeLoop (fuel : Nat) (item : PlaylistItem) (path : Path) : Option PlaylistItem :=
  match fuel with
  | 0 => some item
  | fuel + 1 =>
    if pathsEqual path item.root then none
    else
      let item' : PlaylistItem :=
        { item with tracks := removeTracks item.tracks path,
                    paths := (removePaths item.paths item.data path).1,
                    data := (removePaths item.paths item.data path).2 }
      match dataLookup item'.data path.dropLast with
      | none => some item'
      | some e =>
        match e.keysOf with
        | none => some item'
        | some ks =>
          let item'' : PlaylistItem :=
            { item' with
              data := dataInsert item'.data path.dropLast
                        (e.setKeys (spliceKeys ks (path.getLastD default))) }
          if (spliceKeys ks (path.getLastD default)).length = 0 ∧ 1 < path.dropLast.length
          then removeLoop fuel item'' path.dropLast
          else some item''

/-- `remove(itemIndex, path)` from `PlaylistStore.js`: run the
collapse loop on item `itemIndex`; splice the item out of the list when
the loop deleted it, else store the mutated item back; finish with
`setPlaylistCurrent(null)`. Returns the new item list and the new
(always null) current position. -/
def removeCur (items : List PlaylistItem) (itemIndex : Nat) (path : Path) :
    List PlaylistItem × Option Current :=
  match removeLoop (path.length + 1) (items.getD itemIndex default) path with
  | none => (items.eraseIdx itemIndex, none)
  | some item' => (items.set itemIndex item', none)

/-! ## Expansion: `buildPlaylistItem` from PlaylistStore.js -/

/-- A catalog node as returned by `CollectionStore.getCollection`:
groups with ordered child keys, a leaf with a number of tracks, or a
node carrying neither (the `console.error` case). -/
inductive CNode where
  | cgroups (gs : List Key)
  | ctracks (n : Nat)
  | cnone
deriving DecidableEq, Repr

/-- The breadth-first `while (queue.length > 0)` loop of
`buildPlaylistItem`; arguments after the fuel are the queue of
root-relative paths and the `paths`, `data`, `tracks` accumulators.
One iteration dequeues a path `p`, reads the node at `root ++ p`,
records its entry under the absolute key, and for groups enqueues the
children / for leaves appends the relative track paths `p ++ [i]`.
`fuel` bounds the number of iterations. -/
def buildBFS (store : Path → CNode) (root : Path) :
    Nat → List Path → List Path → List (Path × Entry) → List Path → PlaylistItem
  | 0, _, ps, d, ts => ⟨root, ps, d, ts⟩
  | _ + 1, [], ps, d, ts => ⟨root, ps, d, ts⟩
  | fuel + 1, p :: queue, ps, d, ts =>
    match store (root ++ p) with
    | .cgroups gs =>
      buildBFS store root fuel (queue ++ gs.map fun k => p ++ [k])
        (ps ++ [p]) (dataInsert d (root ++ p) (Entry.egroup gs)) ts
    | .ctracks n =>
      buildBFS store root fuel queue (ps ++ [p])
        (dataInsert d (root ++ p) (Entry.etracks ((List.range n).map Key.num)))
        (ts ++ (List.range n).map fun i => p ++ [Key.num i])
    | .cnone =>
      buildBFS store root fuel queue (ps ++ [p])
        (dataInsert d (root ++ p) Entry.eempty) ts

/-- `buildPlaylistItem(root)`: breadth-first expansion of the catalog
subtree under `root`. Modelled from the spec: the catalog
(`CollectionStore.getCollection`, not among the sources) is an external
collaborator returning a node for a Path, passed here as `store`. Any
fuel at least the number of reachable nodes yields the loop's result. -/
def buildPlaylistItem (store : Path → CNode) (root : Path) (fuel : Nat) : PlaylistItem :=
  buildBFS store root fuel [[]] [] [] []

/-! ## Claim C5: PLAY_ITEM error handling -/

theorem findTrack_not_found (root path : Path) :
    ∀ (ts : List Path) (i : Nat), (∀ tp ∈ ts, root ++ tp ≠ path) →
      findTrack root path i ts = -1 := by
  intro ts
  induction ts with
  | nil => intro i _; rfl
  | cons tp rest ih =>
    intro i h
    unfold findTrack
    rw [if_neg (h tp (List.mem_cons_self tp rest))]
    exact ih (i + 1) fun tp' hm => h tp' (List.mem_cons_of_mem tp hm)

theorem findTrack_found (root path : Path) :
    ∀ (ts : List Path) (i j : Nat), j < ts.length →
      root ++ ts.getD j [] = path →
      (∀ j' < j, root ++ ts.getD j' [] ≠ path) →
      findTrack root path i ts = ((i + j : Nat) : Int) := by
  intro ts
  induction ts with
  | nil =>
    intro i j hj
    simp at hj
  | cons tp rest ih =>
    intro i j hj hmatch hfirst
    cases j with
    | zero =>
      unfold findTrack
      rw [if_pos (by simpa using hmatch)]
      simp
    | succ j' =>
      unfold findTrack
      rw [if_neg (by simpa using hfirst 0 (Nat.succ_pos j'))]
      rw [ih (i + 1) j' (by simpa using hj) (by simpa using hmatch)
          (fun j'' hj'' => by simpa using hfirst (j'' + 1) (by omega))]
      congr 1
      omega

/-- C5 fails on the code: when the requested path matches no track,
`setCurrent` reports an error but then still overwrites the current
position with `{item, path, track: -1}` instead of leaving it as it
was. -/
theorem setCurrent_missing_cex :
    (setCurrentCur itemsOneTrack 0 [Key.str "x"]).2 = true
      ∧ (setCurrentCur itemsOneTrack 0 [Key.str "x"]).1
          = some ⟨0, -1, [Key.str "x"]⟩ := by
  decide

/-- C5 (amended): `setCurrent(index, path)` scans item `index`'s track
list for an exact match; when no track matches it reports an error and
stores `{item := index, track := -1, path}` as the current position
(it does not leave the position unchanged); when the first match is at
index `j` it stores `{item := index, track := j, path}` without
error. -/
theorem setCurrent_spec (items : List PlaylistItem) (idx : Nat) (path : Path)
    (_hidx : idx < items.length) :
    ((∀ tp ∈ (items.getD idx default).tracks,
        (items.getD idx default).root ++ tp ≠ path) →
      setCurrentCur items idx path = (some ⟨idx, -1, path⟩, true))
    ∧ (∀ j : Nat, j < (items.getD idx default).tracks.length →
        (items.getD idx default).root ++ (items.getD idx default).tracks.getD j [] = path →
        (∀ j' < j,
          (items.getD idx default).root ++ (items.getD idx default).tracks.getD j' [] ≠ path) →
        setCurrentCur items idx path = (some ⟨idx, (j : Int), path⟩, false)) := by
  constructor
  · intro h
    simp only [setCurrentCur]
    rw [findTrack_not_found _ _ _ 0 h]
    simp
  · intro j hj hm hf
    simp only [setCurrentCur]
    rw [findTrack_found _ _ _ 0 j hj hm hf]
    have h0 : ((0 + j : Nat) : Int) = (j : Int) := by omega
    rw [h0, decide_eq_false (by omega : ¬((j : Int) = -1))]

/-- Witness instantiating `setCurrent_spec`: playing the only track of
`itemsOneTrack` by its absolute path sets the position to track 0. -/
theorem setCurrent_spec_witness :
    setCurrentCur itemsOneTrack 0 [Key.str "r", Key.num 0]
      = (some ⟨0, 0, [Key.str "r", Key.num 0]⟩, false) :=
  (setCurrent_spec itemsOneTrack 0 [Key.str "r", Key.num 0] (by decide)).2 0
    (by decide) (by decide) (fun j' hj' => absurd hj' (Nat.not_lt_zero j'))

/-! ## Claim C4: REMOVE at an item root -/

theorem prefChk_self : ∀ p : Path, prefChk p p = true
  | [] => rfl
  | x :: xs => by simp [prefChk, prefChk_self xs]

theorem pathsEqual_self (p : Path) : pathsEqual p p = true := by
  simp [pathsEqual, isPathPre, prefChk_self p]

theorem removeLoop_root (fuel : Nat) (item : PlaylistItem) :
    removeLoop (fuel + 1) item item.root = none := by
  simp [removeLoop, pathsEqual_self]

/-- C4 (confirmed): `remove` with the selected item's root path splices
exactly that item out of the list, leaving all other items in place and
untouched, and every `remove` — root or not — unconditionally clears
the current position. -/
theorem remove_root_deletes_item (items : List PlaylistItem) (idx : Nat)
    (_hidx : idx < items.length) :
    removeCur items idx (items.getD idx default).root = (items.eraseIdx idx, none)
    ∧ ∀ path : Path, (removeCur items idx path).2 = none := by
  constructor
  · unfold removeCur
    rw [removeLoop_root]
  · intro path
    unfold removeCur
    cases removeLoop (path.length + 1) (items.getD idx default) path <;> rfl

/-- Witness instantiating `remove_root_deletes_item` on `exItemsC1`. -/
theorem remove_root_deletes_item_witness :
    (removeCur exItemsC1 0 (exItemsC1.getD 0 default).root = (exItemsC1.eraseIdx 0, none))
    ∧ ∀ path : Path, (removeCur exItemsC1 0 path).2 = none :=
  remove_root_deletes_item exItemsC1 0 (by decide)

/-! ## Claim C3: REMOVE of a subtree -/

/-- Catalog for C3: root `r` with children `b` and `c`, one track
each. -/
def storeC3 : Path → CNode := fun p =>
  if p = [Key.str "r"] then CNode.cgroups [Key.str "b", Key.str "c"]
  else if p = [Key.str "r", Key.str "b"] then CNode.ctracks 1
  else if p = [Key.str "r", Key.str "c"] then CNode.ctracks 1
  else CNode.cnone

/-- The playlist item expanded from root `[r]` over `storeC3`. -/
def itemC3 : PlaylistItem := buildPlaylistItem storeC3 [Key.str "r"] 3

/-- C3: `remove` does not delete the subtree. Removing path `[r, b]`
from `itemC3` (root `[r]`, absolute track paths `[r,b,0]` and
`[r,c,0]`) must — per the claim — delete the track path under `[r, b]`
and the structural sub-path `[b]`; the code leaves `tracks` and
`paths` unchanged (its prefix tests compare the absolute removal path
against the root-relative stored paths, and its structural delete keys
the `data` map by relative paths although it is keyed by absolute
ones), while it does splice the key `b` out of the root entry. -/
theorem remove_subtree_not_deleted :
    ((removeCur [itemC3] 0 [Key.str "r", Key.str "b"]).1.getD 0 default).tracks
        = [[Key.str "b", Key.num 0], [Key.str "c", Key.num 0]]
    ∧ ((removeCur [itemC3] 0 [Key.str "r", Key.str "b"]).1.getD 0 default).paths
        = [[], [Key.str "b"], [Key.str "c"]]
    ∧ dataLookup ((removeCur [itemC3] 0 [Key.str "r", Key.str "b"]).1.getD 0 default).data
        [Key.str "r"] = some (Entry.egroup [Key.str "c"])
    ∧ itemC3.tracks = [[Key.str "b", Key.num 0], [Key.str "c", Key.num 0]]
    ∧ itemC3.paths = [[], [Key.str "b"], [Key.str "c"]] := by
  decide

/-! ## Claim C6: expansion order and shape -/

/-- Catalog for C6: root with children `A` (tracks 0, 1) and `B`
(track 0). -/
def storeC6 : Path → CNode := fun p =>
  if p = [Key.str "root"] then CNode.cgroups [Key.str "A", Key.str "B"]
  else if p = [Key.str "root", Key.str "A"] then CNode.ctracks 2
  else if p = [Key.str "root", Key.str "B"] then CNode.ctracks 1
  else CNode.cnone

/-- The item `buildPlaylistItem` produces over `storeC6`. -/
def exItemC6 : PlaylistItem :=
  { root := [Key.str "root"],
    paths := [[], [Key.str "A"], [Key.str "B"]],
    data := [([Key.str "root"], Entry.egroup [Key.str "A", Key.str "B"]),
             ([Key.str "root", Key.str "A"], Entry.etracks [Key.num 0, Key.num 1]),
             ([Key.str "root", Key.str "B"], Entry.etracks [Key.num 0])],
    tracks := [[Key.str "A", Key.num 0], [Key.str "A", Key.num 1],
               [Key.str "B", Key.num 0]] }

/-- C6 fails as stated: the flat track list of the expanded item stores
root-relative paths `[[A,0],[A,1],[B,0]]`, not the absolute
`[[root,A,0],[root,A,1],[root,B,0]]` the claim names. -/
theorem build_tracks_relative_cex :
    (buildPlaylistItem storeC6 [Key.str "root"] 3).tracks
      ≠ [[Key.str "root", Key.str "A", Key.num 0],
         [Key.str "root", Key.str "A", Key.num 1],
         [Key.str "root", Key.str "B", Key.num 0]] := by
  decide

/-- C6 (amended): expanding root `[root]` over `storeC6` by
breadth-first traversal records each internal node's ordered child-key
list (under the node's absolute path) and appends leaf tracks in
order, producing the root-relative flat track list
`[[A,0],[A,1],[B,0]]` in exactly that order (the root prefix is not
included in the stored track paths; absolute paths arise only when a
track is played, via `root.concat`). -/
theorem build_bfs_spec (fuel : Nat) (hfuel : 3 ≤ fuel) :
    buildPlaylistItem storeC6 [Key.str "root"] fuel = exItemC6 := by
  obtain ⟨m, rfl⟩ : ∃ m, fuel = m + 3 := ⟨fuel - 3, by omega⟩
  have hempty : ∀ (f : Nat) ps d ts,
      buildBFS storeC6 [Key.str "root"] f [] ps d ts = ⟨[Key.str "root"], ps, d, ts⟩ := by
    intro f ps d ts
    cases f <;> rfl
  calc buildPlaylistItem storeC6 [Key.str "root"] (m + 3)
      = buildBFS storeC6 [Key.str "root"] m []
          exItemC6.paths exItemC6.data exItemC6.tracks := rfl
    _ = exItemC6 := hempty m _ _ _

/-- Witness instantiating `build_bfs_spec` at fuel 3. -/
theorem build_bfs_spec_witness :
    buildPlaylistItem storeC6 [Key.str "root"] 3 = exItemC6 :=
  build_bfs_spec 3 (Nat.le_refl 3)

/-! ## `sameSearcher` from websocket.go (claims C7, C9, C10) -/

/-- State of a `sameSearcher`: the previous result path list and the
`same` flag. A fresh handler starts from the Go zero value. -/
structure SameSearcher where
  paths : List Path
  same : Bool
deriving DecidableEq, Repr

/-- The searcher embedded in a fresh `websocketHandler` (only the
wrapped `Searcher` is set; `paths` and `same` take zero values). -/
def initSearcher : SameSearcher := ⟨[], false⟩

/-- The comparison loop of `sameSearcher.Search`:
`for i, path := range r.paths { if path[1] != paths[i][1] { … } }`,
breaking at the first mismatch. `none` models the Go panic when an
index access `path[1]` is out of range; the caller only runs the loop
on lists of equal length, so the mixed-length case is unreachable. -/
def cmpSecond : List Path → List Path → Option Bool
  | [], _ => some true
  | p :: ps, q :: qs => do
    let a ← p[1]?
    let b ← q[1]?
    if a ≠ b then some false else cmpSecond ps qs
  | _ :: _, [] => none

/-- `sameSearcher.Search`: given the result list of the wrapped
searcher (`results`), set `same` — equal length to the previous list
and equal second Key at every index — and store the new list as the
previous one. `none` models the out-of-range panic. -/
def searcherStep (st : SameSearcher) (results : List Path) : Option SameSearcher :=
  if st.paths.length = results.length then
    (cmpSecond st.paths results).map fun b => ⟨results, b⟩
  else
    some ⟨results, false⟩

/-- `websocketHandler.search`: run the searcher, then send a Response
(`true`) unless the searcher reported `same` (`false`, suppressed). -/
def searchResponds (st : SameSearcher) (results : List Path) :
    Option (Bool × SameSearcher) :=
  (searcherStep st results).map fun st' => (!st'.same, st')

theorem cmpSecond_some (ps : List Path) :
    ∀ qs : List Path, (∀ p ∈ ps, 2 ≤ p.length) → (∀ q ∈ qs, 2 ≤ q.length) →
    ps.length = qs.length →
    ∃ b, cmpSecond ps qs = some b
      ∧ (b = true ↔ ∀ i < ps.length, (ps.getD i [])[1]? = (qs.getD i [])[1]?) := by
  induction ps with
  | nil =>
    intro qs _ _ _
    exact ⟨true, rfl, by simp⟩
  | cons p ps ih =>
    intro qs hp hq hlen
    cases qs with
    | nil => simp at hlen
    | cons q qs =>
      have hpl : 1 < p.length := by
        have := hp p (List.mem_cons_self p ps)
        omega
      have hql : 1 < q.length := by
        have := hq q (List.mem_cons_self q qs)
        omega
      obtain ⟨a, ha⟩ : ∃ a, p[1]? = some a :=
        ⟨p.get ⟨1, hpl⟩, List.getElem?_eq_getElem hpl⟩
      obtain ⟨b, hb⟩ : ∃ b, q[1]? = some b :=
        ⟨q.get ⟨1, hql⟩, List.getElem?_eq_getElem hql⟩
      by_cases hab : a = b
      · obtain ⟨c, hc1, hc2⟩ := ih qs
          (fun p' hm => hp p' (List.mem_cons_of_mem p hm))
          (fun q' hm => hq q' (List.mem_cons_of_mem q hm))
          (by simpa using hlen)
        refine ⟨c, ?_, ?_⟩
        · simp [cmpSecond, ha, hb, hab, hc1]
        · rw [hc2]
          constructor
          · intro h i hi
            cases i with
            | zero =>
              simpa [ha, hb] using hab
            | succ i =>
              simpa using h i (by simpa using hi)
          · intro h i hi
            simpa using h (i + 1) (by simpa using hi)
      · refine ⟨false, ?_, ?_⟩
        · simp [cmpSecond, ha, hb, hab]
        · simp only [Bool.false_eq_true, false_iff, not_forall]
          refine ⟨0, by simp, ?_⟩
          simpa [ha, hb] using hab

/-- C7 (confirmed, under the well-formedness precondition that claim C9
makes explicit — every path involved has at least two keys): for two
consecutive SEARCH queries, the second Response is suppressed iff the
new result list has the same length as the previous one and agrees
with it on the second Key at every index; in all cases the new result
list becomes the stored previous list. -/
theorem search_suppression (st : SameSearcher) (results : List Path)
    (hp : ∀ p ∈ st.paths, 2 ≤ p.length) (hq : ∀ q ∈ results, 2 ≤ q.length) :
    ∃ st', searchResponds st results = some (!st'.same, st')
      ∧ st'.paths = results
      ∧ (st'.same = true
          ↔ (st.paths.length = results.length
              ∧ ∀ i < st.paths.length, (st.paths.getD i [])[1]? = (results.getD i [])[1]?)) := by
  by_cases hlen : st.paths.length = results.length
  · obtain ⟨b, hb1, hb2⟩ := cmpSecond_some st.paths results hp hq hlen
    refine ⟨⟨results, b⟩, ?_, rfl, ?_⟩
    · simp [searchResponds, searcherStep, hlen, hb1]
    · simpa [hlen] using hb2
  · refine ⟨⟨results, false⟩, ?_, rfl, ?_⟩
    · simp [searchResponds, searcherStep, hlen]
    · simp [hlen]

/-- Witness instantiating `search_suppression`: the previous result
`[[a, b]]` and the new result `[[c, b]]` agree on the second key, so
the Response is suppressed even though the first keys differ. -/
theorem search_suppression_witness :
    ∃ st', searchResponds ⟨[[Key.str "a", Key.str "b"]], false⟩
          [[Key.str "c", Key.str "b"]] = some (!st'.same, st')
      ∧ st'.paths = [[Key.str "c", Key.str "b"]]
      ∧ (st'.same = true
          ↔ (([[Key.str "a", Key.str "b"]] : List Path).length
                = ([[Key.str "c", Key.str "b"]] : List Path).length
              ∧ ∀ i < ([[Key.str "a", Key.str "b"]] : List Path).length,
                  (([[Key.str "a", Key.str "b"]] : List Path).getD i [])[1]?
                    = (([[Key.str "c", Key.str "b"]] : List Path).getD i [])[1]?)) :=
  search_suppression ⟨[[Key.str "a", Key.str "b"]], false⟩ [[Key.str "c", Key.str "b"]]
    (by decide) (by decide)

/-- C9 (confirmed): the suppression comparison indexes `path[1]`
unconditionally, so it is well-defined whenever every compared path
has at least two keys (first conjunct), and a compared path with
fewer than two keys makes the index access out of range — a Go panic,
modelled as `none` (second conjunct, at a concrete input). -/
theorem search_second_key_panic :
    (∀ (st : SameSearcher) (results : List Path),
        (st.paths.length = results.length ∧ st.paths.length ≠ 0 →
          (∀ p ∈ st.paths, 2 ≤ p.length) ∧ (∀ q ∈ results, 2 ≤ q.length)) →
        (searcherStep st results).isSome = true)
    ∧ searcherStep ⟨[[Key.str "a"]], false⟩ [[Key.str "b"]] = none := by
  constructor
  · intro st results h
    by_cases hlen : st.paths.length = results.length
    · by_cases hz : st.paths.length = 0
      · have hps : st.paths = [] := List.length_eq_zero.mp hz
        have hqs : results = [] := List.length_eq_zero.mp (by omega)
        simp [searcherStep, hps, hqs, cmpSecond]
      · obtain ⟨hp, hq⟩ := h ⟨hlen, hz⟩
        obtain ⟨b, hb1, _⟩ := cmpSecond_some st.paths results hp hq hlen
        simp [searcherStep, hlen, hb1]
    · simp [searcherStep, hlen]
  · decide

/-- Witness instantiating the universally quantified part of
`search_second_key_panic`. -/
theorem search_second_key_panic_witness :
    (searcherStep ⟨[[Key.str "a", Key.str "b"]], false⟩
        [[Key.str "c", Key.str "d"]]).isSome = true :=
  search_second_key_panic.1 ⟨[[Key.str "a", Key.str "b"]], false⟩
    [[Key.str "c", Key.str "d"]] (fun _ => ⟨by decide, by decide⟩)

/-- C10 (confirmed): on a fresh connection (zero-valued searcher, empty
previous list), a first SEARCH whose result list is empty compares
equal-length-0 with the empty previous state, the loop is vacuous, so
the query is classified `same` and no Response at all is sent; the
empty list is stored as the new previous list. -/
theorem first_empty_search_suppressed :
    searchResponds initSearcher [] = some (false, ⟨[], true⟩) := by
  decide

/-! ## Command payload extraction (websocket.go, claim C8) -/

/-- A primitive JSON value (array element). The Path decoder accepts
only primitive Keys, so array and object elements — not representable
here — would be rejected exactly like `pnull`. -/
inductive JPrim where
  | pstr (s : String)
  | pnum (q : Rat)
  | pbool (b : Bool)
  | pnull
deriving DecidableEq, Repr

/-- A JSON value as decoded into a Go `interface\x7b\x7d` by
`websocket.JSON.Receive`: strings, numbers (float64, here exact
rationals — JSON cannot carry NaN or infinities), booleans, arrays of
primitives, null. -/
inductive JValue where
  | vstr (s : String)
  | vnum (q : Rat)
  | vbool (b : Bool)
  | varr (xs : List JPrim)
  | vnull
deriving DecidableEq, Repr

/-- `Command`: `{Action string, Data map[string]interface\x7b\x7d}`. -/
structure Command where
  action : String
  data : List (String × JValue)
deriving DecidableEq, Repr

instance {ε α : Type _} [DecidableEq ε] [DecidableEq α] : DecidableEq (Except ε α)
  | Except.error e, Except.error e' => decidable_of_iff (e = e') (by simp)
  | Except.ok a, Except.ok a' => decidable_of_iff (a = a') (by simp)
  | Except.error _, Except.ok _ => isFalse (by simp)
  | Except.ok _, Except.error _ => isFalse (by simp)

def lookupField : List (String × JValue) → String → Option JValue
  | [], _ => none
  | (k, v) :: rest, f => if k = f then some v else lookupField rest f

/-- `Command.get`: raw field access, error when the key is absent. -/
def Command.get (c : Command) (f : String) : Except String JValue :=
  match lookupField c.data f with
  | none => Except.error ("expected " ++ f ++ " in data map")
  | some v => Except.ok v

/-- `Command.getString`: error unless the field holds a string — no
coercion of other value shapes. -/
def Command.getString (c : Command) (f : String) : Except String String :=
  match c.get f with
  | Except.error e => Except.error e
  | Except.ok (JValue.vstr s) => Except.ok s
  | Except.ok _ => Except.error ("expected " ++ f ++ " to be of type string")

/-- `Command.getFloat`: error unless the field holds a number. -/
def Command.getFloat (c : Command) (f : String) : Except String Rat :=
  match c.get f with
  | Except.error e => Except.error e
  | Except.ok (JValue.vnum q) => Except.ok q
  | Except.ok _ => Except.error ("expected " ++ f ++ " to be of type float64")

/-- Go `int(x)` on a float64: truncation toward zero. -/
def truncInt (q : Rat) : Int := if 0 ≤ q then q.floor else q.ceil

/-- `Command.getInt`: `getFloat` followed by the `int(raw)`
conversion. -/
def Command.getInt (c : Command) (f : String) : Except String Int :=
  match c.getFloat f with
  | Except.error e => Except.error e
  | Except.ok q => Except.ok (truncInt q)

/-- `Command.getBool`: error unless the field holds a boolean. -/
def Command.getBool (c : Command) (f : String) : Except String Bool :=
  match c.get f with
  | Except.error e => Except.error e
  | Except.ok (JValue.vbool b) => Except.ok b
  | Except.ok _ => Except.error ("expected " ++ f ++ " to be of type bool")

/-- A single Key from a JSON value. Modelled from the spec:
`index.PathFromJSONInterface` (in `tchaik.com/index`, outside the
given sources) decodes a Path as an "ordered array of primitive Key
values"; non-primitive elements are errors. -/
def keyOfPrim : JPrim → Option Key
  | JPrim.pstr s => some (Key.str s)
  | JPrim.pnum q => if q.den = 1 ∧ 0 ≤ q.num then some (Key.num q.num.toNat) else none
  | _ => none

def pathOfPrims : List JPrim → Option Path
  | [] => some []
  | v :: vs => do
    let k ← keyOfPrim v
    let rest ← pathOfPrims vs
    pure (k :: rest)

/-- `Command.getPath`: decode the field as a Path. Modelled from the
spec for the part delegated to `index.PathFromJSONInterface`. -/
def Command.getPath (c : Command) (f : String) : Except String Path :=
  match c.get f with
  | Except.error e => Except.error e
  | Except.ok (JValue.varr xs) =>
    match pathOfPrims xs with
    | some p => Except.ok p
    | none => Except.error ("invalid path element in " ++ f)
  | Except.ok _ => Except.error ("expected " ++ f ++ " to be a path array")

/-- The fields of a cursor/playlist RepAction envelope. -/
structure RepActionArgs where
  name : String
  action : String
  path : Path
  index : Int
deriving DecidableEq, Repr

/-- Extraction phase of `websocketHandler.cursor`: `.error e` — the
handler returns the error before applying anything; `.ok none` — a
FETCH, no RepAction built; `.ok (some ra)` — the RepAction that would
be applied. The results of `c.getPath("path")` and `c.getInt("index")`
are received as `path, _ :=` and `index, _ :=` — their errors are
discarded and the Go zero values (nil path, 0) used instead. -/
def cursorPrepare (c : Command) : Except String (Option RepActionArgs) :=
  match c.getString "name" with
  | Except.error e => Except.error e
  | Except.ok name =>
    match c.getString "action" with
    | Except.error e => Except.error e
    | Except.ok action =>
      if action = "FETCH" then Except.ok none
      else
        Except.ok (some { name := name, action := action,
                          path := (c.getPath "path").toOption.getD [],
                          index := (c.getInt "index").toOption.getD 0 })

/-- Extraction phase of `websocketHandler.playlist`: like the cursor
handler but the error of `c.getPath("path")` is checked and returned,
while the error of `c.getInt("index")` is still discarded. -/
def playlistPrepare (c : Command) : Except String (Option RepActionArgs) :=
  match c.getString "name" with
  | Except.error e => Except.error e
  | Except.ok name =>
    match c.getString "action" with
    | Except.error e => Except.error e
    | Except.ok action =>
      if action = "FETCH" then Except.ok none
      else
        match c.getPath "path" with
        | Except.error e => Except.error e
        | Except.ok path =>
          Except.ok (some { name := name, action := action, path := path,
                            index := (c.getInt "index").toOption.getD 0 })

/-- A PLAY_ITEM command whose `index` field holds a string. -/
def cmdPlayItemBadIndex : Command :=
  { action := "PLAYLIST",
    data := [("name", JValue.vstr "p"), ("action", JValue.vstr "PLAY_ITEM"),
             ("path", JValue.varr [JPrim.pstr "Root"]),
             ("index", JValue.vstr "5")] }

/-- C8 fails as stated: for the PLAY_ITEM command whose `index` field
has the wrong type, extraction of `index` — a field this handler
needs — fails with a descriptive error, yet the playlist handler
discards that failure (`index, _ := c.getInt("index")`) and proceeds
with index 0 instead of reporting the error. -/
theorem extraction_error_ignored_cex :
    cmdPlayItemBadIndex.getInt "index"
        = Except.error "expected index to be of type float64"
    ∧ playlistPrepare cmdPlayItemBadIndex
        = Except.ok (some { name := "p", action := "PLAY_ITEM",
                            path := [Key.str "Root"], index := 0 }) := by
  decide

/-- C8 (amended): the extractor functions fail with a descriptive
error on a missing field or a wrong-typed field, without cross-type
coercion (`getString`/`getBool`/`getFloat` succeed exactly on a
string/bool/number field), except that `getInt` converts the JSON
number by truncation toward zero; the handlers report `name` and
`action` extraction failures (and the playlist handler `path`
failures) as handler errors, but the cursor handler's `path` and both
handlers' `index` extraction failures are silently discarded and
replaced by zero values. -/
theorem command_extraction_spec (c : Command) (f : String) :
    ((∃ s, c.getString f = Except.ok s)
        ↔ (∃ s, lookupField c.data f = some (JValue.vstr s)))
    ∧ ((∃ b, c.getBool f = Except.ok b)
        ↔ (∃ b, lookupField c.data f = some (JValue.vbool b)))
    ∧ ((∃ q, c.getFloat f = Except.ok q)
        ↔ (∃ q, lookupField c.data f = some (JValue.vnum q)))
    ∧ (∀ q, c.getFloat f = Except.ok q → c.getInt f = Except.ok (truncInt q))
    ∧ (∀ name action, c.getString "name" = Except.ok name →
        c.getString "action" = Except.ok action → action ≠ "FETCH" →
        cursorPrepare c
          = Except.ok (some { name := name, action := action,
                              path := (c.getPath "path").toOption.getD [],
                              index := (c.getInt "index").toOption.getD 0 }))
    ∧ (∀ name action e, c.getString "name" = Except.ok name →
        c.getString "action" = Except.ok action → action ≠ "FETCH" →
        c.getPath "path" = Except.error e →
        playlistPrepare c = Except.error e) := by
  refine ⟨?_, ?_, ?_, ?_, ?_, ?_⟩
  · cases h : lookupField c.data f with
    | none => simp [Command.getString, Command.get, h]
    | some v => cases v <;> simp [Command.getString, Command.get, h]
  · cases h : lookupField c.data f with
    | none => simp [Command.getBool, Command.get, h]
    | some v => cases v <;> simp [Command.getBool, Command.get, h]
  · cases h : lookupField c.data f with
    | none => simp [Command.getFloat, Command.get, h]
    | some v => cases v <;> simp [Command.getFloat, Command.get, h]
  · intro q hq
    simp [Command.getInt, hq]
  · intro name action hn ha hf
    simp [cursorPrepare, hn, ha, hf]
  · intro name action e hn ha hf hp
    simp [playlistPrepare, hn, ha, hf, hp]

/-- A CURSOR command carrying no `path` field. -/
def cmdCursorNoPath : Command :=
  { action := "CURSOR",
    data := [("name", JValue.vstr "n"), ("action", JValue.vstr "MOVE")] }

/-- Witness instantiating `command_extraction_spec`: the cursor
handler succeeds on a MOVE command with no `path` field, using the
zero values. -/
theorem command_extraction_spec_witness :
    cursorPrepare cmdCursorNoPath
      = Except.ok (some { name := "n", action := "MOVE",
                          path := (cmdCursorNoPath.getPath "path").toOption.getD [],
                          index := (cmdCursorNoPath.getInt "index").toOption.getD 0 }) :=
  (command_extraction_spec cmdCursorNoPath "name").2.2.2.2.1 "n" "MOVE"
    (by decide) (by decide) (by decide)

end Tchaik
